import Mathlib

/-!
Verification of the chess-suspension automation tool.

The development shallowly embeds the core pipeline of the repository:
* `lib/ssh.js` — shell command builders (`escapeForShell`, `buildSudoCommand`,
  `buildHostsUploadCommand`, `buildBrowserKillCommand`);
* `lib/commands.js` — `parseChessCommand`;
* `suspend-chess.js` — the orchestrated run (`establishSSHConnection`,
  `uploadHostsFile`, `killBrowserProcess`, `killAllBrowsers`,
  `executeRemoteCommands`, `suspendChess`);
* `ntfy/ntfy-listener.js` — the webhook handler.

Remote effects (SSH connect, command execution, local file reads) are
abstracted as an environment of functions returning `Except` (a rejected
promise is `Except.error`), and the observable behaviour of a run — which
remote commands were executed, which hosts variant was read, whether the
connection was released — is recorded as an event trace.
-/

namespace Chess

/-- The single-quote character. -/
def sq : Char := '\x27'

/-- The backslash character. -/
def bs : Char := '\\'

/-- The global single-quote replacement `str.replace(/\x27/g, ...)` on the
character list: every single quote becomes the four characters
quote, backslash, quote, quote. -/
def escQuoteL : List Char → List Char
  | [] => []
  | c :: cs =>
    if c = sq then sq :: bs :: sq :: sq :: escQuoteL cs
    else c :: escQuoteL cs

/-- Embeds `escapeForShell(str)`: replace every single quote with the
four-character escape sequence. -/
def escapeForShell (s : String) : String := ⟨escQuoteL s.data⟩

/-- Embeds `buildSudoCommand(password, command)`: the command is escaped
inline with the same quote replacement, the password through
`escapeForShell`. -/
def buildSudoCommand (password command : String) : String :=
  let escapedCommand : String := ⟨escQuoteL command.data⟩
  "echo \x27" ++ escapeForShell password ++ "\x27 | sudo -S bash -c \x27" ++
    escapedCommand ++ "\x27"

/-- Embeds `buildHostsUploadCommand(remoteHostsPath, remoteBackupPath,
hostsContent)`: copy the target to the backup, then printf the escaped
content over the target. -/
def buildHostsUploadCommand (remoteHostsPath remoteBackupPath hostsContent : String) : String :=
  let escapedContent : String := ⟨escQuoteL hostsContent.data⟩
  "cp " ++ remoteHostsPath ++ " " ++ remoteBackupPath ++ " && printf " ++
    "\x27%s\\n\x27 \x27" ++ escapedContent ++ "\x27 > " ++ remoteHostsPath

/-- Embeds `buildBrowserKillCommand(browsers)`: one `pkill -f` over the
space-joined browser list, with a trailing always-true disjunct. -/
def buildBrowserKillCommand (browsers : List String) : String :=
  let browserList := String.intercalate " " browsers
  "pkill -f \x27" ++ browserList ++ "\x27 || true"

/-- Model of POSIX shell word interpretation. `shRun inSq cs` interprets the
character stream `cs` as one shell word: outside single quotes
(`inSq = false`) a backslash escapes the next character and a single quote
opens a single-quoted segment; inside single quotes every character is
literal until the closing quote. The result is the word the shell reads, or
`none` when the stream ends inside an unterminated quote or after a dangling
backslash. -/
def shRun : Bool → List Char → Option (List Char)
  | true, [] => none
  | true, c :: rest =>
    if c = sq then shRun false rest
    else (shRun true rest).map (c :: ·)
  | false, [] => some []
  | false, c :: rest =>
    if c = sq then shRun true rest
    else if c = bs then
      match rest with
      | [] => none
      | d :: rest2 => (shRun false rest2).map (d :: ·)
    else (shRun false rest).map (c :: ·)

/-- Character-level model of the JavaScript `toLowerCase` method
(per-character lowering; all strings handled here are ASCII). -/
def toLowerStr (s : String) : String := ⟨s.data.map Char.toLower⟩

/-- Boolean prefix test on character lists. -/
def isPrefixL : List Char → List Char → Bool
  | [], _ => true
  | _ :: _, [] => false
  | a :: as, b :: rest => a == b && isPrefixL as rest

/-- Character-level model of the JavaScript `includes` method on strings:
`pat` occurs as a contiguous substring of `s`. -/
def containsSub : (pat s : List Char) → Bool
  | pat, [] => isPrefixL pat []
  | pat, b :: rest => isPrefixL pat (b :: rest) || containsSub pat rest

/-- String version: `s.includes(pat)`. -/
def strIncludes (s pat : String) : Bool := containsSub pat.data s.data

/-- Embeds `parseChessCommand(message, tags = [])` from `src/lib/commands.js`:
tags are checked first (block/suspend, then allow/unblock), then substrings
of the lower-cased message; `none` models the null return. `message` and
`tags` are optional to model absent JavaScript arguments; a missing or null
tag list is replaced by the empty list, and a missing message by the empty
string. -/
def parseChessCommand (message : Option String) (tags : Option (List String)) : Option Bool :=
  let messageLower := (message.map toLowerStr).getD ""
  let tagsList := (tags.getD []).map toLowerStr
  if tagsList.contains "block" || tagsList.contains "suspend" then
    some true
  else if tagsList.contains "allow" || tagsList.contains "unblock" then
    some false
  else if strIncludes messageLower "block" || strIncludes messageLower "suspend" ||
      strIncludes messageLower "stop chess" || strIncludes messageLower "disable chess" then
    some true
  else if strIncludes messageLower "allow" || strIncludes messageLower "unblock" ||
      strIncludes messageLower "enable chess" || strIncludes messageLower "start chess" then
    some false
  else
    none

/-- Result `{code, output}` of one remote command, as resolved by
`executeSSHCommand`. -/
structure ExecResult where
  code : Int
  output : String
  deriving DecidableEq

/-- Environment a run executes against: the outcome of the SSH connect, the
password an interactive prompt would supply, the local hosts-file read
(selected by blocking mode), and the result of each remote command. -/
structure Env where
  connect : Except String Unit
  promptedPassword : String
  readHosts : Bool → Except String String
  exec : String → Except String ExecResult

/-- Mutable part of `SSH_CONFIG` that the run touches. -/
structure Cfg where
  suspendChess : Bool
  password : String
  deriving DecidableEq

/-- Observable events of a run: a remote command execution, the local
hosts-variant read, and the `conn.end()` release of the session. -/
inductive Ev where
  | execCmd (command : String)
  | readHosts (isBlocking : Bool)
  | ended
  deriving DecidableEq

/-- Event trace of a run, in order. -/
abbrev Trace := List Ev

/-- Constant `PKILL_SUCCESS_CODE`. -/
def PKILL_SUCCESS_CODE : Int := 0

/-- Constant `PKILL_NO_PROCESSES_CODE`. -/
def PKILL_NO_PROCESSES_CODE : Int := 1

/-- Constant `BROWSERS_TO_KILL`. -/
def BROWSERS_TO_KILL : List String := ["firefox", "brave"]

/-- Branch taken by `killBrowserProcess` after a command execution that
resolved with an exit code (which of the three log messages fires). -/
inductive KillOutcome where
  | success
  | noProcesses
  | failed (code : Int)
  deriving DecidableEq

/-- Log branch of `killBrowserProcess` selected by the exit code, per
`PKILL_SUCCESS_CODE` and `PKILL_NO_PROCESSES_CODE`. -/
def killOutcomeOf (code : Int) : KillOutcome :=
  if code = PKILL_SUCCESS_CODE then .success
  else if code = PKILL_NO_PROCESSES_CODE then .noProcesses
  else .failed code

/-- Embeds `killBrowserProcess(conn, browserName, executeCommand)`: execute
the kill command for one browser; an execution error is logged and rethrown,
while an exit code only selects a log branch and the call succeeds. -/
def killBrowserProcess (exec : String → Except String ExecResult) (browserName : String) :
    Except String KillOutcome × Trace :=
  let command := buildBrowserKillCommand [browserName]
  match exec command with
  | .error e => (.error e, [.execCmd command])
  | .ok r => (.ok (killOutcomeOf r.code), [.execCmd command])

/-- Loop body of `killAllBrowsers` over a browser list: sequential, stopping
at the first rethrown error. -/
def killList (exec : String → Except String ExecResult) :
    List String → Except String (List KillOutcome) × Trace
  | [] => (.ok [], [])
  | b :: rest =>
    match killBrowserProcess exec b with
    | (.error e, tr) => (.error e, tr)
    | (.ok o, tr) =>
      match killList exec rest with
      | (.error e, tr2) => (.error e, tr ++ tr2)
      | (.ok os, tr2) => (.ok (o :: os), tr ++ tr2)

/-- Embeds `killAllBrowsers(conn, executeCommand)`. -/
def killAllBrowsers (exec : String → Except String ExecResult) :
    Except String (List KillOutcome) × Trace :=
  killList exec BROWSERS_TO_KILL

/-- Constant `REMOTE_HOSTS_PATH`. -/
def REMOTE_HOSTS_PATH : String := "/etc/hosts"

/-- Constant `REMOTE_HOSTS_BACKUP_PATH`. -/
def REMOTE_HOSTS_BACKUP_PATH : String := "/etc/hosts.backup"

/-- Embeds `buildCompleteUploadCommand(password, hostsContent)`: the
file-replace command wrapped in the sudo command. -/
def buildCompleteUploadCommand (password hostsContent : String) : String :=
  buildSudoCommand password
    (buildHostsUploadCommand REMOTE_HOSTS_PATH REMOTE_HOSTS_BACKUP_PATH hostsContent)

/-- Embeds `uploadHostsFile(conn, hostsContent, executeCommand)`: a non-zero
exit code becomes a thrown upload error carrying that code. -/
def uploadHostsFile (env : Env) (cfg : Cfg) (hostsContent : String) :
    Except String Unit × Trace :=
  let uploadCommand := buildCompleteUploadCommand cfg.password hostsContent
  match env.exec uploadCommand with
  | .error e => (.error e, [.execCmd uploadCommand])
  | .ok r =>
    if r.code ≠ 0 then
      (.error ("Upload failed with exit code " ++ toString r.code), [.execCmd uploadCommand])
    else
      (.ok (), [.execCmd uploadCommand])

/-- Configuration after the interactive password prompt inside
`establishSSHConnection`: when the configured password is empty (falsy) the
prompted one is stored into `SSH_CONFIG`. -/
def effectiveCfg (env : Env) (cfg : Cfg) : Cfg :=
  if cfg.password = "" then { cfg with password := env.promptedPassword } else cfg

/-- Embeds `establishSSHConnection(conn)`: prompt for a password when the
configured one is empty, then connect. -/
def establishSSHConnection (env : Env) (cfg : Cfg) : Except String Unit × Cfg :=
  (env.connect, effectiveCfg env cfg)

/-- Embeds `readLocalHostsFile(isBlocking)`: select and read the local hosts
variant; errors are logged and rethrown. -/
def readLocalHostsFile (env : Env) (isBlocking : Bool) : Except String String × Trace :=
  (env.readHosts isBlocking, [.readHosts isBlocking])

/-- Try-body of `executeRemoteCommands`: connect, read the local hosts
variant for the current blocking mode, upload it with privilege elevation,
then kill the configured browsers. -/
def remoteBody (env : Env) (cfg : Cfg) : Except String Unit × Cfg × Trace :=
  let conn := establishSSHConnection env cfg
  let cfg1 := conn.2
  match conn.1 with
  | .error e => (.error e, cfg1, [])
  | .ok _ =>
    let rd := readLocalHostsFile env cfg1.suspendChess
    match rd.1 with
    | .error e => (.error e, cfg1, rd.2)
    | .ok hostsContent =>
      let up := uploadHostsFile env cfg1 hostsContent
      match up.1 with
      | .error e => (.error e, cfg1, rd.2 ++ up.2)
      | .ok _ =>
        let kl := killAllBrowsers env.exec
        match kl.1 with
        | .error e => (.error e, cfg1, rd.2 ++ up.2 ++ kl.2)
        | .ok _ => (.ok (), cfg1, rd.2 ++ up.2 ++ kl.2)

/-- Embeds `executeRemoteCommands()`: the body wrapped in
`try ... finally conn.end()`. -/
def executeRemoteCommands (env : Env) (cfg : Cfg) : Except String Unit × Cfg × Trace :=
  let r := remoteBody env cfg
  (r.1, r.2.1, r.2.2 ++ [.ended])

/-- Embeds `suspendChess(shouldBlock)`: save `SSH_CONFIG.suspendChess`,
overwrite it with the argument, run the zero-minute timer (which completes
immediately) and the remote commands, and restore the saved value in the
`finally` block; a failure is logged and rethrown, success returns `true`. -/
def suspendChess (env : Env) (cfg : Cfg) (shouldBlock : Bool) :
    Except String Bool × Cfg × Trace :=
  let originalSetting := cfg.suspendChess
  let cfg1 : Cfg := { cfg with suspendChess := shouldBlock }
  let r := executeRemoteCommands env cfg1
  (r.1.map (fun _ => true), { r.2.1 with suspendChess := originalSetting }, r.2.2)

/-- Observable actions of the webhook handler, in order. -/
inductive WebEv where
  | respond (status : String) (action : Option String)
  | orchestrate (shouldBlock : Bool)
  deriving DecidableEq

/-- Embeds the webhook route handler of `ntfy/ntfy-listener.js`: parse the
intent from the request body; unrecognized → respond with the ignored status
and stop; recognized → respond with the accepted status and the action name,
then invoke `suspendChess` (whose own outcome only affects logging and a
dead post-response 500 attempt, not modelled). -/
def ntfyWebhookHandler (message : Option String) (tags : Option (List String)) : List WebEv :=
  match parseChessCommand message tags with
  | none => [.respond "ignored" none]
  | some shouldBlock =>
    [.respond "accepted" (some (if shouldBlock then "blocking" else "allowing")),
     .orchestrate shouldBlock]

/-- Concrete configuration used by witnesses: blocking default, non-empty
password. -/
def cfg0 : Cfg := { suspendChess := true, password := "pw" }

/-- Concrete environment where everything succeeds but the privileged upload
command exits with code 2. -/
def envUpload2 : Env where
  connect := .ok ()
  promptedPassword := "prompted"
  readHosts := fun _ => .ok "HOSTS"
  exec := fun c =>
    if c = buildCompleteUploadCommand "pw" "HOSTS" then .ok ⟨2, ""⟩ else .ok ⟨0, ""⟩

/-- Concrete environment where the firefox kill command raises an execution
error and every other command succeeds with exit code 0. -/
def envKillErr : Env where
  connect := .ok ()
  promptedPassword := "prompted"
  readHosts := fun _ => .ok "HOSTS"
  exec := fun c =>
    if c = buildBrowserKillCommand ["firefox"] then .error "channel failure"
    else .ok ⟨0, ""⟩

/-- Concrete environment where the kill commands resolve with exit codes 1
(no processes) and 9 (failure) and everything else exits 0. -/
def envKillCodes : Env where
  connect := .ok ()
  promptedPassword := "prompted"
  readHosts := fun _ => .ok "HOSTS"
  exec := fun c =>
    if c = buildBrowserKillCommand ["firefox"] then .ok ⟨1, ""⟩
    else if c = buildBrowserKillCommand ["brave"] then .ok ⟨9, ""⟩
    else .ok ⟨0, ""⟩

/-- Concrete executor resolving every command with exit code 0. -/
def execZero : String → Except String ExecResult := fun _ => .ok ⟨0, ""⟩

/-! ## Lemmas about the shell model and the builders -/

lemma shRun_false_nil : shRun false [] = some [] := by
  rw [shRun.eq_def]

lemma shRun_true_quote (rest : List Char) :
    shRun true (sq :: rest) = shRun false rest := by
  rw [shRun.eq_def]
  simp

lemma shRun_true_cons (c : Char) (rest : List Char) (h : c ≠ sq) :
    shRun true (c :: rest) = (shRun true rest).map (c :: ·) := by
  rw [shRun.eq_def]
  simp [h]

lemma shRun_false_quote (rest : List Char) :
    shRun false (sq :: rest) = shRun true rest := by
  rw [shRun.eq_def]
  simp

lemma shRun_false_backslash (d : Char) (rest : List Char) :
    shRun false (bs :: d :: rest) = (shRun false rest).map (d :: ·) := by
  rw [shRun.eq_def]
  simp [sq, bs]

lemma shRun_inside_escQuoteL (l : List Char) :
    shRun true (escQuoteL l ++ [sq]) = some l := by
  induction l with
  | nil =>
    simp only [escQuoteL, List.nil_append]
    rw [shRun_true_quote, shRun_false_nil]
  | cons c cs ih =>
    by_cases hc : c = sq
    · subst hc
      have h1 : escQuoteL (sq :: cs) ++ [sq] =
          sq :: bs :: sq :: sq :: (escQuoteL cs ++ [sq]) := by
        simp [escQuoteL]
      rw [h1, shRun_true_quote, shRun_false_backslash, shRun_false_quote, ih]
      rfl
    · have h1 : escQuoteL (c :: cs) ++ [sq] = c :: (escQuoteL cs ++ [sq]) := by
        simp [escQuoteL, hc]
      rw [h1, shRun_true_cons c _ hc, ih]
      rfl

lemma escQuoteL_eq_flatMap (l : List Char) :
    escQuoteL l = l.flatMap (fun c => if c = sq then [sq, bs, sq, sq] else [c]) := by
  induction l with
  | nil => simp [escQuoteL]
  | cons c cs ih =>
    by_cases hc : c = sq
    · subst hc
      simp [escQuoteL, ih]
    · simp [escQuoteL, hc, ih]

lemma buildBrowserKillCommand_split (names : List String) :
    buildBrowserKillCommand names =
      ("pkill -f \x27" ++ String.intercalate " " names ++ "\x27 ") ++ "|| true" := by
  apply String.ext
  show ("pkill -f \x27" ++ String.intercalate " " names ++ "\x27 || true").data = _
  simp only [String.data_append, List.append_assoc]
  rfl

/-! ## Lemmas about the orchestrated run -/

lemma killBrowserProcess_trace (exec : String → Except String ExecResult) (b : String) :
    (killBrowserProcess exec b).2 = [Ev.execCmd (buildBrowserKillCommand [b])] := by
  rcases h : exec (buildBrowserKillCommand [b]) with e | r <;>
    simp [killBrowserProcess, h]

lemma killList_trace_execCmd (exec : String → Except String ExecResult) :
    ∀ (l : List String) (e : Ev), e ∈ (killList exec l).2 →
      ∃ b ∈ l, e = Ev.execCmd (buildBrowserKillCommand [b]) := by
  intro l
  induction l with
  | nil => intro e he; simp [killList] at he
  | cons b rest ih =>
    intro e he
    rw [killList] at he
    rcases hk : killBrowserProcess exec b with ⟨kr, ktr⟩
    have hktr : ktr = [Ev.execCmd (buildBrowserKillCommand [b])] := by
      have := killBrowserProcess_trace exec b
      rw [hk] at this
      exact this
    rw [hk] at he
    cases kr with
    | error e0 =>
      simp only [hktr, List.mem_singleton] at he
      exact ⟨b, by simp, he⟩
    | ok o =>
      rcases hrest : killList exec rest with ⟨rr, rtr⟩
      rw [hrest] at he
      cases rr with
      | error e1 =>
        simp only [hktr] at he
        rcases List.mem_append.mp he with h1 | h2
        · exact ⟨b, by simp, List.mem_singleton.mp h1⟩
        · obtain ⟨b2, hb2, he2⟩ := ih e (by rw [hrest]; exact h2)
          exact ⟨b2, by simp [hb2], he2⟩
      | ok os =>
        simp only [hktr] at he
        rcases List.mem_append.mp he with h1 | h2
        · exact ⟨b, by simp, List.mem_singleton.mp h1⟩
        · obtain ⟨b2, hb2, he2⟩ := ih e (by rw [hrest]; exact h2)
          exact ⟨b2, by simp [hb2], he2⟩

lemma killAllBrowsers_trace_execCmd (exec : String → Except String ExecResult) (e : Ev)
    (he : e ∈ (killAllBrowsers exec).2) :
    ∃ b ∈ BROWSERS_TO_KILL, e = Ev.execCmd (buildBrowserKillCommand [b]) :=
  killList_trace_execCmd exec BROWSERS_TO_KILL e he

lemma uploadHostsFile_trace (env : Env) (cfg : Cfg) (hostsContent : String) :
    (uploadHostsFile env cfg hostsContent).2 =
      [Ev.execCmd (buildCompleteUploadCommand cfg.password hostsContent)] := by
  rcases h : env.exec (buildCompleteUploadCommand cfg.password hostsContent) with e | r
  · simp [uploadHostsFile, h]
  · by_cases h0 : r.code = 0 <;> simp [uploadHostsFile, h, h0]

lemma uploadHostsFile_exec_error (env : Env) (cfg : Cfg) (hostsContent e : String)
    (h : env.exec (buildCompleteUploadCommand cfg.password hostsContent) = .error e) :
    uploadHostsFile env cfg hostsContent =
      (.error e, [Ev.execCmd (buildCompleteUploadCommand cfg.password hostsContent)]) := by
  simp [uploadHostsFile, h]

lemma uploadHostsFile_nonzero (env : Env) (cfg : Cfg) (hostsContent out : String) (n : Int)
    (hn : n ≠ 0)
    (h : env.exec (buildCompleteUploadCommand cfg.password hostsContent) = .ok ⟨n, out⟩) :
    uploadHostsFile env cfg hostsContent =
      (.error ("Upload failed with exit code " ++ toString n),
       [Ev.execCmd (buildCompleteUploadCommand cfg.password hostsContent)]) := by
  simp [uploadHostsFile, h, hn]

lemma uploadHostsFile_zero (env : Env) (cfg : Cfg) (hostsContent out : String)
    (h : env.exec (buildCompleteUploadCommand cfg.password hostsContent) = .ok ⟨0, out⟩) :
    uploadHostsFile env cfg hostsContent =
      (.ok (), [Ev.execCmd (buildCompleteUploadCommand cfg.password hostsContent)]) := by
  simp [uploadHostsFile, h]

lemma effectiveCfg_suspendChess (env : Env) (cfg : Cfg) :
    (effectiveCfg env cfg).suspendChess = cfg.suspendChess := by
  unfold effectiveCfg
  split <;> rfl

lemma remoteBody_connect_error (env : Env) (cfg : Cfg) (e : String)
    (hc : env.connect = .error e) :
    remoteBody env cfg = (.error e, effectiveCfg env cfg, []) := by
  simp [remoteBody, establishSSHConnection, hc]

lemma remoteBody_read_error (env : Env) (cfg : Cfg) (e : String)
    (hc : env.connect = .ok ())
    (hr : env.readHosts (effectiveCfg env cfg).suspendChess = .error e) :
    remoteBody env cfg = (.error e, effectiveCfg env cfg,
      [Ev.readHosts (effectiveCfg env cfg).suspendChess]) := by
  simp [remoteBody, establishSSHConnection, readLocalHostsFile, hc, hr]

lemma remoteBody_upload_error (env : Env) (cfg : Cfg) (hostsContent e : String) (utr : Trace)
    (hc : env.connect = .ok ())
    (hr : env.readHosts (effectiveCfg env cfg).suspendChess = .ok hostsContent)
    (hu : uploadHostsFile env (effectiveCfg env cfg) hostsContent = (.error e, utr)) :
    remoteBody env cfg = (.error e, effectiveCfg env cfg,
      [Ev.readHosts (effectiveCfg env cfg).suspendChess] ++ utr) := by
  simp [remoteBody, establishSSHConnection, readLocalHostsFile, hc, hr, hu]

lemma remoteBody_kill_error (env : Env) (cfg : Cfg) (hostsContent e : String)
    (utr ktr : Trace)
    (hc : env.connect = .ok ())
    (hr : env.readHosts (effectiveCfg env cfg).suspendChess = .ok hostsContent)
    (hu : uploadHostsFile env (effectiveCfg env cfg) hostsContent = (.ok (), utr))
    (hk : killAllBrowsers env.exec = (.error e, ktr)) :
    remoteBody env cfg = (.error e, effectiveCfg env cfg,
      [Ev.readHosts (effectiveCfg env cfg).suspendChess] ++ utr ++ ktr) := by
  simp [remoteBody, establishSSHConnection, readLocalHostsFile, hc, hr, hu, hk]

lemma remoteBody_kill_ok (env : Env) (cfg : Cfg) (hostsContent : String)
    (os : List KillOutcome) (utr ktr : Trace)
    (hc : env.connect = .ok ())
    (hr : env.readHosts (effectiveCfg env cfg).suspendChess = .ok hostsContent)
    (hu : uploadHostsFile env (effectiveCfg env cfg) hostsContent = (.ok (), utr))
    (hk : killAllBrowsers env.exec = (.ok os, ktr)) :
    remoteBody env cfg = (.ok (), effectiveCfg env cfg,
      [Ev.readHosts (effectiveCfg env cfg).suspendChess] ++ utr ++ ktr) := by
  simp [remoteBody, establishSSHConnection, readLocalHostsFile, hc, hr, hu, hk]

lemma remoteBody_readHosts_flag (env : Env) (cfg : Cfg) (b : Bool)
    (h : Ev.readHosts b ∈ (remoteBody env cfg).2.2) : b = cfg.suspendChess := by
  have hs := effectiveCfg_suspendChess env cfg
  have hnotcmd : ∀ (l : Trace), (∀ e ∈ l, ∃ c, e = Ev.execCmd c) →
      Ev.readHosts b ∈ l → b = cfg.suspendChess := by
    intro l hl hmem
    obtain ⟨c, hcmd⟩ := hl _ hmem
    cases hcmd
  rcases hc : env.connect with e | u
  · rw [remoteBody_connect_error env cfg e hc] at h
    simp at h
  · obtain rfl : u = () := rfl
    rcases hr : env.readHosts (effectiveCfg env cfg).suspendChess with e | hostsContent
    · rw [remoteBody_read_error env cfg e hc hr] at h
      simp at h
      exact h.trans hs
    · rcases hu : uploadHostsFile env (effectiveCfg env cfg) hostsContent with ⟨ur, utr⟩
      have hutr : utr =
          [Ev.execCmd (buildCompleteUploadCommand (effectiveCfg env cfg).password
            hostsContent)] := by
        have h2 := uploadHostsFile_trace env (effectiveCfg env cfg) hostsContent
        rw [hu] at h2
        exact h2
      cases ur with
      | error e1 =>
        rw [remoteBody_upload_error env cfg hostsContent e1 utr hc hr hu] at h
        rcases List.mem_append.mp h with h1 | h2
        · simp at h1
          exact h1.trans hs
        · rw [hutr] at h2
          simp at h2
      | ok u1 =>
        obtain rfl : u1 = () := rfl
        rcases hk : killAllBrowsers env.exec with ⟨kr, ktr⟩
        have hktr : ∀ e ∈ ktr, ∃ c, e = Ev.execCmd c := by
          intro e he
          obtain ⟨b2, _, he2⟩ := killAllBrowsers_trace_execCmd env.exec e
            (by rw [hk]; exact he)
          exact ⟨_, he2⟩
        have hmem : Ev.readHosts b ∈
            [Ev.readHosts (effectiveCfg env cfg).suspendChess] ++ utr ++ ktr := by
          cases kr with
          | error e2 =>
            rw [remoteBody_kill_error env cfg hostsContent e2 utr ktr hc hr hu hk] at h
            exact h
          | ok os =>
            rw [remoteBody_kill_ok env cfg hostsContent os utr ktr hc hr hu hk] at h
            exact h
        rcases List.mem_append.mp hmem with h12 | h3
        · rcases List.mem_append.mp h12 with h1 | h2
          · simp at h1
            exact h1.trans hs
          · rw [hutr] at h2
            simp at h2
        · exact hnotcmd ktr hktr h3

lemma executeRemoteCommands_trace (env : Env) (cfg : Cfg) :
    (executeRemoteCommands env cfg).2.2 = (remoteBody env cfg).2.2 ++ [Ev.ended] := rfl

/-! ## Claim theorems -/

/-- C1: `escapeForShell` returns its input with every single quote replaced
by the four-character sequence quote backslash quote quote, and the result,
embedded between single quotes in a shell word, is interpreted by the shell
as exactly the original string with no premature quote termination. -/
theorem escapeForShell_single_quote_safe (s : String) :
    (escapeForShell s).data =
      s.data.flatMap (fun c => if c = sq then [sq, bs, sq, sq] else [c]) ∧
    shRun false (sq :: (escapeForShell s).data ++ [sq]) = some s.data := by
  constructor
  · exact escQuoteL_eq_flatMap s.data
  · have hdata : (escapeForShell s).data = escQuoteL s.data := rfl
    rw [hdata, List.cons_append, shRun_false_quote, shRun_inside_escQuoteL]

/-- C5: tags take precedence over the message text in `parseChessCommand`:
a lower-cased tag list containing a block/suspend tag yields Block whatever
the message, and one containing an allow/unblock tag (and no block/suspend
tag) yields Allow; in particular the two spec examples hold. -/
theorem parseChessCommand_tag_precedence :
    (∀ (message : Option String) (tags : List String),
      ((tags.map toLowerStr).contains "block" = true ∨
       (tags.map toLowerStr).contains "suspend" = true) →
      parseChessCommand message (some tags) = some true) ∧
    (∀ (message : Option String) (tags : List String),
      (tags.map toLowerStr).contains "block" = false →
      (tags.map toLowerStr).contains "suspend" = false →
      ((tags.map toLowerStr).contains "allow" = true ∨
       (tags.map toLowerStr).contains "unblock" = true) →
      parseChessCommand message (some tags) = some false) ∧
    parseChessCommand (some "allow the sites") (some ["block"]) = some true ∧
    parseChessCommand (some "block the sites") (some ["allow"]) = some false := by
  refine ⟨?_, ?_, by decide, by decide⟩
  · rintro message tags h
    have hcond : ((tags.map toLowerStr).contains "block" ||
        (tags.map toLowerStr).contains "suspend") = true := by
      rcases h with h | h <;> simp at h ⊢
      · exact Or.inl h
      · exact Or.inr h
    simp only [parseChessCommand, Option.getD_some, hcond]
    simp
  · rintro message tags h1 h2 h
    have hcond1 : ((tags.map toLowerStr).contains "block" ||
        (tags.map toLowerStr).contains "suspend") = false := by
      simp at h1 h2 ⊢
      exact ⟨h1, h2⟩
    have hcond2 : ((tags.map toLowerStr).contains "allow" ||
        (tags.map toLowerStr).contains "unblock") = true := by
      rcases h with h | h <;> simp at h ⊢
      · exact Or.inl h
      · exact Or.inr h
    simp only [parseChessCommand, Option.getD_some, hcond1, hcond2]
    simp

/-- C5 witness: the blocking tag hypothesis holds at the first spec example
and the theorem instantiates there. -/
theorem parseChessCommand_tag_precedence_w :
    ((["block"].map toLowerStr).contains "block" = true ∨
     (["block"].map toLowerStr).contains "suspend" = true) ∧
    parseChessCommand (some "allow the sites") (some ["block"]) = some true :=
  ⟨Or.inl (by decide),
   parseChessCommand_tag_precedence.1 (some "allow the sites") ["block"] (Or.inl (by decide))⟩

/-- C6: with an empty tag list, any message whose lower-cased text contains
the substring "block" — including messages containing "unblock", since the
Block substrings are checked first — parses as Block, and in particular the
spec example parses as Block. -/
theorem parseChessCommand_unblock_is_block :
    (∀ (message : String) (tags : Option (List String)),
      tags.getD [] = [] →
      strIncludes (toLowerStr message) "block" = true →
      parseChessCommand (some message) tags = some true) ∧
    parseChessCommand (some "Unblock chess websites") (some []) = some true := by
  refine ⟨?_, by decide⟩
  intro message tags htags hsub
  have hcond : (strIncludes (toLowerStr message) "block" ||
      strIncludes (toLowerStr message) "suspend" ||
      strIncludes (toLowerStr message) "stop chess" ||
      strIncludes (toLowerStr message) "disable chess") = true := by
    simp [hsub]
  simp only [parseChessCommand, htags, List.map_nil, Option.map_some', Option.getD_some, hcond]
  simp

/-- C6 witness: the hypotheses hold at the spec example and the theorem
instantiates there. -/
theorem parseChessCommand_unblock_is_block_w :
    (some ([] : List String)).getD [] = [] ∧
    strIncludes (toLowerStr "Unblock chess websites") "block" = true ∧
    parseChessCommand (some "Unblock chess websites") (some []) = some true :=
  ⟨rfl, by decide,
   parseChessCommand_unblock_is_block.1 "Unblock chess websites" (some []) rfl (by decide)⟩

/-- C7: `buildBrowserKillCommand` returns exactly one pkill command over the
space-joined name list — never one command per name — matching the two spec
examples, and every produced command ends in the always-true suffix. -/
theorem buildBrowserKillCommand_spec :
    (∀ names : List String, buildBrowserKillCommand names =
      "pkill -f \x27" ++ String.intercalate " " names ++ "\x27 || true") ∧
    buildBrowserKillCommand ["firefox", "brave"] = "pkill -f \x27firefox brave\x27 || true" ∧
    buildBrowserKillCommand [] = "pkill -f \x27\x27 || true" ∧
    (∀ names : List String, ∃ p : String, buildBrowserKillCommand names = p ++ "|| true") := by
  refine ⟨fun names => rfl, by decide, by decide, fun names => ?_⟩
  exact ⟨"pkill -f \x27" ++ String.intercalate " " names ++ "\x27 ",
    buildBrowserKillCommand_split names⟩

/-- C8: `buildSudoCommand` pipes the escaped secret into sudo and runs the
inner command, itself escaped with the same single-quote escaping as
`escapeForShell`, inside a bash sub-shell. -/
theorem buildSudoCommand_spec :
    (∀ password command : String, buildSudoCommand password command =
      "echo \x27" ++ escapeForShell password ++ "\x27 | sudo -S bash -c \x27" ++
        escapeForShell command ++ "\x27") ∧
    buildSudoCommand "hunter\x27s pw" "cat \x27/etc/hosts\x27" =
      "echo \x27hunter\x27\\\x27\x27s pw\x27 | sudo -S bash -c \x27cat \x27\\\x27\x27/etc/hosts\x27\\\x27\x27\x27" :=
  ⟨fun _ _ => rfl, by decide⟩

/-- C3: a non-zero exit code from the privileged upload command fails the
run with the upload error carrying that exit code, the process-kill steps
are not executed (the trace shows only the hosts read and the upload
command), the session is released, and `conn.end()` is reached on every
other exit path of `executeRemoteCommands` as well. -/
theorem uploadFailure_aborts_and_releases :
    (∀ (env : Env) (cfg : Cfg) (hostsContent out : String) (n : Int),
      env.connect = .ok () →
      env.readHosts cfg.suspendChess = .ok hostsContent →
      env.exec (buildCompleteUploadCommand (effectiveCfg env cfg).password hostsContent) =
        .ok ⟨n, out⟩ →
      n ≠ 0 →
      executeRemoteCommands env cfg =
        (.error ("Upload failed with exit code " ++ toString n), effectiveCfg env cfg,
          [Ev.readHosts cfg.suspendChess,
           Ev.execCmd (buildCompleteUploadCommand (effectiveCfg env cfg).password hostsContent),
           Ev.ended])) ∧
    (∀ (env : Env) (cfg : Cfg), Ev.ended ∈ (executeRemoteCommands env cfg).2.2) := by
  constructor
  · intro env cfg hostsContent out n hc hr hexec hn
    have hs := effectiveCfg_suspendChess env cfg
    have hr2 : env.readHosts (effectiveCfg env cfg).suspendChess = .ok hostsContent := by
      rw [hs]
      exact hr
    have hu := uploadHostsFile_nonzero env (effectiveCfg env cfg) hostsContent out n hn hexec
    have hb := remoteBody_upload_error env cfg hostsContent _ _ hc hr2 hu
    simp only [executeRemoteCommands, hb, hs]
    simp
  · intro env cfg
    simp [executeRemoteCommands]

/-- C3 witness: in the concrete environment where the upload command exits
with code 2, the run fails with the upload error, only the hosts read and
the upload command appear before the release event. -/
theorem uploadFailure_aborts_and_releases_w :
    executeRemoteCommands envUpload2 cfg0 =
      (.error "Upload failed with exit code 2", cfg0,
        [Ev.readHosts true, Ev.execCmd (buildCompleteUploadCommand "pw" "HOSTS"),
         Ev.ended]) :=
  uploadFailure_aborts_and_releases.1 envUpload2 cfg0 "HOSTS" "" 2 rfl rfl rfl (by decide)

/-- C2 counterexample: in the concrete environment where the firefox kill
command raises an execution error, the orchestrated run does not complete
successfully and the second configured process name is never attempted —
refuting the claim that every failure while killing one process is
non-fatal. -/
theorem killError_aborts_run :
    (executeRemoteCommands envKillErr cfg0).1 = .error "channel failure" ∧
    Ev.execCmd (buildBrowserKillCommand ["brave"]) ∉
      (executeRemoteCommands envKillErr cfg0).2.2 := by
  constructor
  · rfl
  · decide

/-- C2 amended: per-process kill failures signalled by exit codes are
non-fatal — when both kill commands resolve with exit codes, of any values,
the orchestrator executes both and the run completes successfully; an error
raised while executing a kill command is instead rethrown and aborts the
run (see the counterexample). -/
theorem killExitCodes_nonfatal (env : Env) (cfg : Cfg)
    (hostsContent out : String) (r1 r2 : ExecResult)
    (hc : env.connect = .ok ())
    (hr : env.readHosts cfg.suspendChess = .ok hostsContent)
    (hup : env.exec (buildCompleteUploadCommand (effectiveCfg env cfg).password hostsContent) =
      .ok ⟨0, out⟩)
    (hk1 : env.exec (buildBrowserKillCommand ["firefox"]) = .ok r1)
    (hk2 : env.exec (buildBrowserKillCommand ["brave"]) = .ok r2) :
    (executeRemoteCommands env cfg).1 = .ok () ∧
    Ev.execCmd (buildBrowserKillCommand ["firefox"]) ∈ (executeRemoteCommands env cfg).2.2 ∧
    Ev.execCmd (buildBrowserKillCommand ["brave"]) ∈ (executeRemoteCommands env cfg).2.2 := by
  have hs := effectiveCfg_suspendChess env cfg
  have hr2 : env.readHosts (effectiveCfg env cfg).suspendChess = .ok hostsContent := by
    rw [hs]
    exact hr
  have hu := uploadHostsFile_zero env (effectiveCfg env cfg) hostsContent out hup
  have hkb1 : killBrowserProcess env.exec "firefox" =
      (.ok (killOutcomeOf r1.code), [Ev.execCmd (buildBrowserKillCommand ["firefox"])]) := by
    simp [killBrowserProcess, hk1]
  have hkb2 : killBrowserProcess env.exec "brave" =
      (.ok (killOutcomeOf r2.code), [Ev.execCmd (buildBrowserKillCommand ["brave"])]) := by
    simp [killBrowserProcess, hk2]
  have hka : killAllBrowsers env.exec =
      (.ok [killOutcomeOf r1.code, killOutcomeOf r2.code],
       [Ev.execCmd (buildBrowserKillCommand ["firefox"]),
        Ev.execCmd (buildBrowserKillCommand ["brave"])]) := by
    simp [killAllBrowsers, BROWSERS_TO_KILL, killList, hkb1, hkb2]
  have hb := remoteBody_kill_ok env cfg hostsContent _ _ _ hc hr2 hu hka
  refine ⟨?_, ?_, ?_⟩ <;> simp [executeRemoteCommands, hb]

/-- C2 witness (amended claim): with exit codes 1 and 9 from the two kill
commands the run still completes successfully and both kill commands were
executed. -/
theorem killExitCodes_nonfatal_w :
    (executeRemoteCommands envKillCodes cfg0).1 = .ok () ∧
    Ev.execCmd (buildBrowserKillCommand ["firefox"]) ∈
      (executeRemoteCommands envKillCodes cfg0).2.2 ∧
    Ev.execCmd (buildBrowserKillCommand ["brave"]) ∈
      (executeRemoteCommands envKillCodes cfg0).2.2 :=
  killExitCodes_nonfatal envKillCodes cfg0 "HOSTS" "" ⟨1, ""⟩ ⟨9, ""⟩ rfl rfl rfl rfl rfl

/-- C9: every kill command the orchestrator builds ends in the always-true
suffix, so under shell semantics in which such commands exit 0 the
no-process and failure log branches of `killBrowserProcess` are unreachable:
whenever a kill command resolves with an exit code, the observed outcome is
the success branch — the orchestrator cannot observe whether anything was
killed. -/
theorem killBranches_unreachable :
    (∀ browsers : List String, ∃ p : String,
      buildBrowserKillCommand browsers = p ++ "|| true") ∧
    (∀ (exec : String → Except String ExecResult) (browserName : String),
      (∀ (c : String) (r : ExecResult), (∃ p : String, c = p ++ "|| true") →
        exec c = .ok r → r.code = 0) →
      ∀ o : KillOutcome, (killBrowserProcess exec browserName).1 = .ok o →
        o = KillOutcome.success) := by
  constructor
  · intro browsers
    exact ⟨_, buildBrowserKillCommand_split browsers⟩
  · intro exec browserName hshell o ho
    rcases hx : exec (buildBrowserKillCommand [browserName]) with e | r
    · have h1 : (killBrowserProcess exec browserName).1 = .error e := by
        simp [killBrowserProcess, hx]
      rw [h1] at ho
      cases ho
    · have h1 : (killBrowserProcess exec browserName).1 = .ok (killOutcomeOf r.code) := by
        simp [killBrowserProcess, hx]
      rw [h1] at ho
      injection ho with ho2
      have hr0 : r.code = 0 :=
        hshell (buildBrowserKillCommand [browserName]) r
          ⟨_, buildBrowserKillCommand_split [browserName]⟩ hx
      rw [← ho2, hr0]
      decide

/-- C9 witness: under the executor resolving every command with exit code 0
the shell hypothesis holds and the firefox kill outcome is the success
branch. -/
theorem killBranches_unreachable_w :
    (killBrowserProcess execZero "firefox").1 = .ok KillOutcome.success ∧
    KillOutcome.success = KillOutcome.success :=
  ⟨rfl,
   killBranches_unreachable.2 execZero "firefox"
     (fun c r _ h => by
       simp only [execZero] at h
       injection h with h2
       rw [← h2])
     KillOutcome.success rfl⟩

/-- C4: the webhook handler answers an unrecognized intent with the ignored
status and never invokes the orchestrator, and answers a recognized intent
with the accepted status and the action name strictly before the
orchestrator invocation; the two spec scenarios follow. -/
theorem ntfyWebhook_ack_before_run :
    (∀ (message : Option String) (tags : Option (List String)),
      parseChessCommand message tags = none →
      ntfyWebhookHandler message tags = [WebEv.respond "ignored" none] ∧
      ∀ b : Bool, WebEv.orchestrate b ∉ ntfyWebhookHandler message tags) ∧
    (∀ (message : Option String) (tags : Option (List String)) (b : Bool),
      parseChessCommand message tags = some b →
      ntfyWebhookHandler message tags =
        [WebEv.respond "accepted" (some (if b then "blocking" else "allowing")),
         WebEv.orchestrate b]) ∧
    ntfyWebhookHandler (some "hello") (some []) = [WebEv.respond "ignored" none] ∧
    ntfyWebhookHandler (some "block this now") (some []) =
      [WebEv.respond "accepted" (some "blocking"), WebEv.orchestrate true] := by
  refine ⟨?_, ?_, by decide, by decide⟩
  · intro message tags hp
    refine ⟨by simp [ntfyWebhookHandler, hp], ?_⟩
    intro b
    simp [ntfyWebhookHandler, hp]
  · intro message tags b hp
    simp [ntfyWebhookHandler, hp]

/-- C4 witness: the parse hypotheses hold at the two spec scenarios and the
theorem instantiates there. -/
theorem ntfyWebhook_ack_before_run_w :
    parseChessCommand (some "hello") (some []) = none ∧
    ntfyWebhookHandler (some "hello") (some []) = [WebEv.respond "ignored" none] ∧
    WebEv.orchestrate true ∉ ntfyWebhookHandler (some "hello") (some []) ∧
    parseChessCommand (some "block this now") (some []) = some true ∧
    ntfyWebhookHandler (some "block this now") (some []) =
      [WebEv.respond "accepted" (some "blocking"), WebEv.orchestrate true] := by
  have h1 := ntfyWebhook_ack_before_run.1 (some "hello") (some []) (by decide)
  have h2 := ntfyWebhook_ack_before_run.2.1 (some "block this now") (some []) true (by decide)
  exact ⟨by decide, h1.1, h1.2 true, by decide, h2⟩

/-- C10: `suspendChess` saves the configured default flag, runs with its
argument (every hosts read during the run observes the argument, not the
saved default), and the returned configuration carries the saved original
value on the success and failure paths alike. -/
theorem suspendChess_restores_default (env : Env) (cfg : Cfg) (shouldBlock : Bool) :
    ((suspendChess env cfg shouldBlock).2.1).suspendChess = cfg.suspendChess ∧
    (∀ b : Bool, Ev.readHosts b ∈ (suspendChess env cfg shouldBlock).2.2 →
      b = shouldBlock) := by
  constructor
  · rfl
  · intro b hb
    have hmem : Ev.readHosts b ∈
        (executeRemoteCommands env { cfg with suspendChess := shouldBlock }).2.2 := hb
    rw [executeRemoteCommands_trace] at hmem
    rcases List.mem_append.mp hmem with h1 | h2
    · exact remoteBody_readHosts_flag env _ b h1
    · simp at h2

/-- C10 witness: in the concrete environment the flag is restored and the
hosts read during the run observed the blocking argument. -/
theorem suspendChess_restores_default_w :
    Ev.readHosts true ∈ (suspendChess envKillCodes cfg0 true).2.2 ∧ true = true :=
  ⟨by decide, (suspendChess_restores_default envKillCodes cfg0 true).2 true (by decide)⟩

end Chess
